import Mathlib

/-!
# plugin-ramcache: HTTP response cache middleware

A shallow embedding of `cache.go` and `ram.go`.

* Go `int` (taken 64 bits wide), `int64` and `time.Duration` values are `Int`; where
  the source multiplies into a `time.Duration` the product is wrapped to 64 bits
  (`wrap64`).
* Instants (`time.Time`) are `Int` nanoseconds on an unbounded axis.  A call of
  `ServeHTTP` reads the clock at one instant `now`.
* The middleware's collaborators that live outside the package
  (`cachecontrol.CachableResponseWriter`, `encoding/json`, the canonical form of
  header names) are fields of `Lib`; every theorem quantifies over them.
* The upstream handler `next` is the sequence of calls it makes on the
  `http.ResponseWriter` it is handed.
* Stateful code is explicit state passing: `ServeHTTP` returns the client's
  writer, the cache and the list of calls made on the collaborators.
-/

namespace RamCache

/-! ## Basic data -/

/-- A Go byte slice, compared by content. -/
abbrev Bytes := List (Fin 256)

/-- Go `http.Header`: header name to its values, as an association list. -/
abbrev Header := List (String × List String)

/-- The values stored under the (already canonical) name `k`. -/
def Header.values (h : Header) (k : String) : List String :=
  (h.lookup k).getD []

/-- Go `Header.Get`: the first value under the canonical form of `k`, or `""`. -/
def Header.Get (canon : String → String) (h : Header) (k : String) : String :=
  (Header.values h (canon k)).headD ""

/-- Go `Header.Set`: the values under the canonical form of `k` become `[v]`. -/
def Header.Set (canon : String → String) (h : Header) (k v : String) : Header :=
  (canon k, [v]) :: h.filter (fun e => e.1 != canon k)

/-- Go `Header.Add`: `v` is appended to the values under the canonical form of `k`. -/
def Header.Add (canon : String → String) (h : Header) (k v : String) : Header :=
  (canon k, Header.values h (canon k) ++ [v]) :: h.filter (fun e => e.1 != canon k)

/-- The part of `http.Request` the middleware reads. -/
structure Request where
  Method : String
  Host : String
  Path : String
  RawQuery : String
  Header : Header
deriving DecidableEq

/-- Config configures the middleware. -/
structure Config where
  MaxExpiry : Int
  RefreshTime : Int
  AddStatusHeader : Bool
  CacheQueryParams : Bool
  ForceNoCacheHeader : Bool
  BlacklistedHeaders : List String
deriving DecidableEq

/-- CreateConfig returns a config instance. -/
def CreateConfig : Config :=
  { MaxExpiry := 300
    RefreshTime := 5
    AddStatusHeader := true
    CacheQueryParams := false
    ForceNoCacheHeader := false
    BlacklistedHeaders := [] }

def cacheHeader : String := "Cache-Status"
def cacheHitStatus : String := "hit"
def cacheMissStatus : String := "miss"
def cacheErrorStatus : String := "error"

/-- The cache entry that is serialised into the store. -/
structure cacheData where
  Status : Int
  Headers : Header
  Body : Bytes
deriving DecidableEq

/-! ## Durations -/

/-- Go `time.Second` in nanoseconds. -/
def Second : Int := 1000000000

/-- Smallest `time.Duration`. -/
def minDuration : Int := -9223372036854775808

/-- Largest `time.Duration`. -/
def maxDuration : Int := 9223372036854775807

/-- Two's complement wrap of an integer to 64 bits, as Go's `int64` arithmetic does. -/
def wrap64 (x : Int) : Int :=
  (x + 9223372036854775808) % 18446744073709551616 - 9223372036854775808

/-- Go `time.Duration(n) * time.Second` for an `int` `n`. -/
def secondsToDuration (n : Int) : Int :=
  wrap64 (n * Second)

/-- Go `time.Until(t)` read at instant `now`: `t - now`, saturated to the range of
`time.Duration`. -/
def timeUntil (t now : Int) : Int :=
  if t - now < minDuration then minDuration
  else if maxDuration < t - now then maxDuration
  else t - now

/-! ## External collaborators -/

/-- What `cachecontrol.CachableResponseWriter` returns: the reasons not to cache,
the freshness deadline, and whether it returned an error. -/
structure PolicyResult where
  reasons : List Nat
  expireBy : Int
  err : Bool
deriving DecidableEq

/-- The functions of other packages that the middleware calls. -/
structure Lib where
  /-- The function `textproto.CanonicalMIMEHeaderKey`, used by `Header.Get`, `Set` and `Add`. -/
  canon : String → String
  /-- The call `cachecontrol.CachableResponseWriter(r, status, w, Options{})`, evaluated on
  the request, the status, the response headers, at the given instant. -/
  CachableResponseWriter : Request → Int → Header → Int → PolicyResult
  /-- Go `json.Marshal` on a `cacheData`: the bytes and whether an error was returned. -/
  Marshal : cacheData → Bytes × Bool
  /-- Go `json.Unmarshal` into a `cacheData`: `none` when it returns an error. -/
  Unmarshal : Bytes → Option cacheData

/-! ## The expiring store (`ram.go`) -/

/-- Modelled from the spec: a record of the expiring store behind `ramCache`
(package go-cache, not part of the sources): the stored bytes and the instant at
which they expire, `none` for a record that never expires. -/
structure Item where
  Object : Bytes
  Expiration : Option Int
deriving DecidableEq

/-- Modelled from the spec: the key to record map of the expiring store. -/
abbrev Items := List (String × Item)

/-- Modelled from the spec: `Set` of the expiring store (go-cache, not part of the
sources): inserts or overwrites the entry, whose time to live `d` is measured from
the call instant `now`.  The spec fixes the expiry for a positive time to live only;
outside of it the store is taken as package go-cache behaves: a duration of zero
stands for the default expiry `de` the store was created with, and an entry whose
duration is negative is stored without expiry. -/
def handlerSet (items : Items) (de : Int) (now : Int) (k : String) (x : Bytes) (d : Int) :
    Items :=
  let d := if d = 0 then de else d
  let e := if 0 < d then some (now + d) else none
  (k, { Object := x, Expiration := e }) :: items.filter (fun e => e.1 != k)

/-- Modelled from the spec: `Get` of the expiring store (go-cache, not part of the
sources): the stored bytes if the key is present and not expired; an entry with an
expiry is absent once `now >= expiresAt`. -/
def handlerGet (items : Items) (now : Int) (k : String) : Option Bytes :=
  match items.lookup k with
  | some it =>
      match it.Expiration with
      | some e => if now < e then some it.Object else none
      | none => some it.Object
  | none => none

structure ramCache where
  expire : Int
  handler : Items
deriving DecidableEq

/-- The Go function `newRAMCache`: it never returns an error. -/
def newRAMCache (expire : Int) : ramCache × Option String :=
  ({ expire := expire, handler := [] }, none)

/-- The default expiry `newRAMCache` creates the store with,
`time.Duration(expire)*time.Second`; zero stands for no expiry, as in go-cache. -/
def ramCache.defaultExpiration (c : ramCache) : Int :=
  if secondsToDuration c.expire = 0 then -1 else secondsToDuration c.expire

/-- The Go method `ramCache.Get`, called at instant `now`: `(value, found)`, with
`none` for Go's `nil`. -/
def ramCache.Get (c : ramCache) (now : Int) (key : String) : Option Bytes × Bool :=
  match handlerGet c.handler now key with
  | some value => (some value, true)
  | none => (none, false)

/-- The Go method `ramCache.Set`, called at instant `now`; the returned error is
always `nil`. -/
def ramCache.Set (c : ramCache) (now : Int) (key : String) (val : Bytes) (expire : Int) :
    ramCache × Option String :=
  ({ c with handler :=
      handlerSet c.handler c.defaultExpiration now key val (secondsToDuration expire) }, none)

/-! ## The client's writer and the capture shim (`cache.go`) -/

/-- Modelled from the spec: the client-facing response channel (the
`http.ResponseWriter` the server hands to the middleware, not part of the sources).
It holds the live header map, the status line once written and the body sent; the
status defaults to 200 when the body is written before any status. -/
structure ResponseWriter where
  header : Header
  wroteHeader : Bool
  code : Int
  body : Bytes
deriving DecidableEq

/-- Modelled from the spec: a fresh client-facing response channel. -/
def newResponseWriter : ResponseWriter :=
  { header := [], wroteHeader := false, code := 200, body := [] }

/-- Modelled from the spec: the status line is written once; a later call changes
nothing. -/
def ResponseWriter.WriteHeader (w : ResponseWriter) (s : Int) : ResponseWriter :=
  if w.wroteHeader then w else { w with wroteHeader := true, code := s }

/-- Modelled from the spec: body bytes are appended; the first write without a
status line writes status 200 first. -/
def ResponseWriter.Write (w : ResponseWriter) (p : Bytes) : ResponseWriter :=
  let w1 := if w.wroteHeader then w else w.WriteHeader 200
  { w1 with body := w1.body ++ p }

/-- The capture shim of `cache.go`; a fresh one has `status = 0` and an empty body,
Go's zero values. -/
structure responseWriter where
  ResponseWriter : ResponseWriter
  status : Int
  body : Bytes
deriving DecidableEq

def responseWriter.Header (rw : responseWriter) : Header :=
  rw.ResponseWriter.header

def responseWriter.Write (rw : responseWriter) (p : Bytes) : responseWriter :=
  { rw with body := rw.body ++ p, ResponseWriter := rw.ResponseWriter.Write p }

def responseWriter.WriteHeader (rw : responseWriter) (s : Int) : responseWriter :=
  { rw with status := s, ResponseWriter := rw.ResponseWriter.WriteHeader s }

/-- One call an upstream handler makes on the writer it is handed. -/
inductive Call where
  | HeaderSet (k v : String)
  | HeaderAdd (k v : String)
  | WriteHeader (s : Int)
  | Write (p : Bytes)
deriving DecidableEq

/-- The shim serving one call of the upstream handler. -/
def responseWriter.serve (L : Lib) (rw : responseWriter) : Call → responseWriter
  | .HeaderSet k v =>
      { rw with ResponseWriter :=
          { rw.ResponseWriter with header := Header.Set L.canon rw.Header k v } }
  | .HeaderAdd k v =>
      { rw with ResponseWriter :=
          { rw.ResponseWriter with header := Header.Add L.canon rw.Header k v } }
  | .WriteHeader s => rw.WriteHeader s
  | .Write p => rw.Write p

/-- The client's writer serving one call directly, without the shim. -/
def ResponseWriter.serve (L : Lib) (w : ResponseWriter) : Call → ResponseWriter
  | .HeaderSet k v => { w with header := Header.Set L.canon w.header k v }
  | .HeaderAdd k v => { w with header := Header.Add L.canon w.header k v }
  | .WriteHeader s => w.WriteHeader s
  | .Write p => w.Write p

/-- An upstream `http.Handler`: the calls it makes on the writer, given the request
and the response headers already set when it is invoked. -/
abbrev Handler := Request → Header → List Call

/-- The call `m.next.ServeHTTP(rw, r)`. -/
def serveNext (L : Lib) (next : Handler) (rw : responseWriter) (r : Request) : responseWriter :=
  (next r rw.Header).foldl (responseWriter.serve L) rw

/-! ## The cache handler (`cache.go`) -/

/-- A call made by `ServeHTTP` on one of its collaborators. -/
inductive Event where
  | Get (key : String)
  | Next
  | Policy (status : Int) (res : PolicyResult)
  | Set (key : String) (val : Bytes) (expire : Int)
deriving DecidableEq

structure cacheHandler where
  name : String
  cache : ramCache
  cfg : Config
  next : Handler

/-- New returns a plugin instance: the handler and the error, `none` for `nil`. -/
def New (next : Handler) (cfg : Config) (name : String) : Option cacheHandler × Option String :=
  if cfg.MaxExpiry ≤ 1 then
    (none, some "MaxExpiry must be greater than 1")
  else
    match newRAMCache cfg.MaxExpiry with
    | (_, some err) => (none, some err)
    | (rc, none) => (some { name := name, cache := rc, cfg := cfg, next := next }, none)

def cacheHandler.cacheKey (m : cacheHandler) (r : Request) : String :=
  if m.cfg.CacheQueryParams then
    r.Method ++ r.Host ++ r.Path ++ r.RawQuery
  else
    r.Method ++ r.Host ++ r.Path

def cacheHandler.cacheable (L : Lib) (m : cacheHandler) (now : Int) (r : Request)
    (w : ResponseWriter) (status : Int) : Int × Bool :=
  let res := L.CachableResponseWriter r status w.header now
  if res.err || decide (res.reasons.length > 0) then
    (0, false)
  else
    let expiry := timeUntil res.expireBy now
    let maxExpiry := secondsToDuration m.cfg.MaxExpiry
    let expiry := if maxExpiry < expiry then maxExpiry else expiry
    (Int.tdiv expiry Second, true)

/-- The state after a call of `ServeHTTP`: the client's writer, the cache, and the
calls made on the store, the upstream handler and the policy, in order. -/
structure Served where
  w : ResponseWriter
  cache : ramCache
  events : List Event
deriving DecidableEq

/-- The loop of the hit branch that adds every stored header value to the writer. -/
def replayHeaders (L : Lib) (h : Header) (stored : Header) : Header :=
  stored.foldl (fun h kv => kv.2.foldl (fun h val => Header.Add L.canon h kv.1 val) h) h

/-- The hit branch of `ServeHTTP`: replay of the stored entry. -/
def cacheHandler.replay (L : Lib) (m : cacheHandler) (w : ResponseWriter) (data : cacheData) :
    ResponseWriter :=
  let w := { w with header := replayHeaders L w.header data.Headers }
  let w := if m.cfg.AddStatusHeader then
      { w with header := Header.Set L.canon w.header cacheHeader cacheHitStatus } else w
  let w := if m.cfg.ForceNoCacheHeader then
      { w with header := Header.Set L.canon w.header "Cache-Control" "no-cache" } else w
  (w.WriteHeader data.Status).Write data.Body

/-- The first step of the miss branch of `ServeHTTP`: the status label `cs` is set
on the writer when `AddStatusHeader` is on. -/
def cacheHandler.label (L : Lib) (m : cacheHandler) (w : ResponseWriter) (cs : String) :
    ResponseWriter :=
  if m.cfg.AddStatusHeader then
    { w with header := Header.Set L.canon w.header cacheHeader cs }
  else w

/-- The second step of the miss branch: the upstream handler runs on a fresh shim
around the labelled writer. -/
def cacheHandler.capture (L : Lib) (m : cacheHandler) (w : ResponseWriter) (r : Request)
    (cs : String) : responseWriter :=
  serveNext L m.next { ResponseWriter := m.label L w cs, status := 0, body := [] } r

/-- The miss branch of `ServeHTTP`, from the `// cache miss` comment on, entered with
status label `cs` after the store was queried for `key`. -/
def cacheHandler.forward (L : Lib) (m : cacheHandler) (now : Int) (w : ResponseWriter)
    (r : Request) (key cs : String) : Served :=
  let rw := m.capture L w r cs
  let w := rw.ResponseWriter
  let res := L.CachableResponseWriter r rw.status w.header now
  match m.cacheable L now r w rw.status with
  | (_, false) =>
      { w := w, cache := m.cache, events := [.Get key, .Next, .Policy rw.status res] }
  | (expiry, true) =>
      let data : cacheData := { Status := rw.status, Headers := w.header, Body := rw.body }
      let b := (L.Marshal data).1
      { w := w, cache := (m.cache.Set now key b expiry).1,
        events := [.Get key, .Next, .Policy rw.status res, .Set key b expiry] }

/-- ServeHTTP serves an HTTP request, at instant `now`, writing to `w`. -/
def cacheHandler.ServeHTTP (L : Lib) (m : cacheHandler) (now : Int) (w : ResponseWriter)
    (r : Request) : Served :=
  if m.cfg.BlacklistedHeaders.any (fun header => Header.Get L.canon r.Header header != "") then
    let rw := serveNext L m.next { ResponseWriter := w, status := 0, body := [] } r
    { w := rw.ResponseWriter, cache := m.cache, events := [.Next] }
  else
    let key := m.cacheKey r
    match m.cache.Get now key with
    | (b, true) =>
        match L.Unmarshal (b.getD []) with
        | none => m.forward L now w r key cacheErrorStatus
        | some data => { w := m.replay L w data, cache := m.cache, events := [.Get key] }
    | (_, false) => m.forward L now w r key cacheMissStatus

/-- The time to live `cacheable` computes from a freshness deadline: the time until
the deadline, capped at `MaxExpiry` seconds as a duration, in whole seconds. -/
def cacheHandler.ttl (m : cacheHandler) (expireBy now : Int) : Int :=
  Int.tdiv
    (if secondsToDuration m.cfg.MaxExpiry < timeUntil expireBy now then
      secondsToDuration m.cfg.MaxExpiry
    else timeUntil expireBy now)
    Second

/-- The policy's result for the response captured on the miss branch. -/
def cacheHandler.verdict (L : Lib) (m : cacheHandler) (now : Int) (w : ResponseWriter)
    (r : Request) (cs : String) : PolicyResult :=
  L.CachableResponseWriter r (m.capture L w r cs).status
    (m.capture L w r cs).ResponseWriter.header now

/-- The cache entry built on the miss branch from what the shim captured. -/
def cacheHandler.entry (L : Lib) (m : cacheHandler) (w : ResponseWriter) (r : Request)
    (cs : String) : cacheData :=
  { Status := (m.capture L w r cs).status
    Headers := (m.capture L w r cs).ResponseWriter.header
    Body := (m.capture L w r cs).body }

/-- Whether a call only touches the header map. -/
def Call.isHeaderCall : Call → Bool
  | .HeaderSet _ _ => true
  | .HeaderAdd _ _ => true
  | .WriteHeader _ => false
  | .Write _ => false

/-- The effective time to live in the spec's words, `min(freshness lifetime,
configured maxExpiry)`, in whole seconds: `lifetime` is a duration in nanoseconds,
`maxExpiry` a number of seconds, and there is no 64-bit wrap. -/
def specEffectiveTTL (lifetime maxExpiry : Int) : Int :=
  Int.tdiv (min lifetime (maxExpiry * Second)) Second

/-- One later call `Set(key, val, expire)` on the store, made at instant `now`. -/
structure SetCall where
  now : Int
  key : String
  val : Bytes
  expire : Int
deriving DecidableEq

/-- The store after a sequence of `Set` calls. -/
def ramCache.SetAll (c : ramCache) (calls : List SetCall) : ramCache :=
  calls.foldl (fun c s => (c.Set s.now s.key s.val s.expire).1) c

/-! ## Concrete inputs -/

/-- A small instance of the collaborators, for concrete evaluations: header names
are taken as they are; the policy knows three `Cache-Control` values; an entry is
serialised as its status byte followed by its body. -/
def sampleLib : Lib where
  canon := id
  CachableResponseWriter := fun _ _ hdr now =>
    if Header.Get id hdr "Cache-Control" = "no-store" then
      { reasons := [1], expireBy := 0, err := false }
    else if Header.Get id hdr "Cache-Control" = "max-age=20" then
      { reasons := [], expireBy := now + 20 * Second, err := false }
    else
      { reasons := [], expireBy := now, err := false }
  Marshal := fun d => (⟨d.Status.toNat % 256, Nat.mod_lt _ (by decide)⟩ :: d.Body, false)
  Unmarshal := fun b =>
    match b with
    | [] => none
    | s :: body => some { Status := s.val, Headers := [], Body := body }

/-- The request of `TestCache_ServeHTTP`: `GET http://localhost/some/path`. -/
def testRequest : Request :=
  { Method := "GET", Host := "localhost", Path := "/some/path", RawQuery := "", Header := [] }

/-- The upstream handler of `TestCache_ServeHTTP`. -/
def testNext : Handler := fun _ _ =>
  [.HeaderSet "Cache-Control" "max-age=20", .WriteHeader 200]

/-- The configuration of `TestCache_ServeHTTP`. -/
def testConfig : Config :=
  { MaxExpiry := 10, RefreshTime := 0, AddStatusHeader := true, CacheQueryParams := false,
    ForceNoCacheHeader := false, BlacklistedHeaders := [] }

/-- The handler `New` builds for `TestCache_ServeHTTP`. -/
def testHandler : cacheHandler :=
  { name := "ramcache", cache := { expire := 10, handler := [] }, cfg := testConfig,
    next := testNext }

/-- A handler that includes the raw query in the key. -/
def queryHandler : cacheHandler :=
  { testHandler with cfg := { testConfig with CacheQueryParams := true } }

/-- The request `GET http://localhost/a?b`. -/
def requestAQueryB : Request :=
  { Method := "GET", Host := "localhost", Path := "/a", RawQuery := "b", Header := [] }

/-- The request `GET http://localhost/ab`. -/
def requestAB : Request :=
  { Method := "GET", Host := "localhost", Path := "/ab", RawQuery := "", Header := [] }

/-- A handler whose configuration blacklists the `Authorization` header. -/
def authHandler : cacheHandler :=
  { testHandler with cfg := { testConfig with BlacklistedHeaders := ["Authorization"] } }

/-- The test request carrying an `Authorization` header. -/
def authRequest : Request :=
  { testRequest with Header := [("Authorization", ["Bearer x"])] }

/-- An upstream handler that replies `Cache-Control: no-store`. -/
def noStoreNext : Handler := fun _ _ =>
  [.HeaderSet "Cache-Control" "no-store", .WriteHeader 200, .Write [104, 105]]

/-- The test handler in front of `noStoreNext`. -/
def noStoreHandler : cacheHandler :=
  { testHandler with next := noStoreNext }

/-- The test handler whose store holds, under the key of `testRequest`, an empty
payload, which `sampleLib.Unmarshal` rejects. -/
def corruptHandler : cacheHandler :=
  { testHandler with
    cache := { expire := 10,
               handler := [("GETlocalhost/some/path", { Object := [], Expiration := some (5 * Second) })] } }

/-- An upstream handler whose reply is fresh for zero seconds. -/
def zeroAgeNext : Handler := fun _ _ =>
  [.HeaderSet "Cache-Control" "max-age=0", .WriteHeader 200, .Write [104, 105]]

/-- The test handler in front of `zeroAgeNext`. -/
def zeroAgeHandler : cacheHandler :=
  { testHandler with next := zeroAgeNext }

/-- An upstream handler that writes a body and never calls `WriteHeader`. -/
def writeOnlyNext : Handler := fun _ _ =>
  [.HeaderSet "Cache-Control" "max-age=20", .Write [104, 105]]

/-- The test handler in front of `writeOnlyNext`. -/
def writeOnlyHandler : cacheHandler :=
  { testHandler with next := writeOnlyNext }

/-- The key of `TestRAMCache`. -/
def testCacheKey : String := "GETlocalhost:8080/test/path"

/-- A configuration whose `MaxExpiry`, in nanoseconds, does not fit 64 bits. -/
def hugeConfig : Config :=
  { testConfig with MaxExpiry := 9223372037 }

/-- The handler `New` builds from `hugeConfig`. -/
def hugeHandler : cacheHandler :=
  { testHandler with cache := { expire := 9223372037, handler := [] }, cfg := hugeConfig }

/-- The client's writer after `testNext` ran on it. -/
def maxAgeWriter : ResponseWriter :=
  { header := [("Cache-Control", ["max-age=20"])], wroteHeader := true, code := 200, body := [] }

/-! ## Construction -/

/-- C2: `New` returns a non-nil error together with a nil handler exactly when
`cfg.MaxExpiry <= 1`, and for every `cfg` with `MaxExpiry > 1` it returns a non-nil
handler (holding `cfg`) and a nil error. -/
theorem New_error_iff (next : Handler) (cfg : Config) (name : String) :
    (((New next cfg name).2 ≠ none ∧ (New next cfg name).1 = none) ↔ cfg.MaxExpiry ≤ 1) ∧
    (1 < cfg.MaxExpiry →
      (∃ m, (New next cfg name).1 = some m ∧ m.cfg = cfg) ∧ (New next cfg name).2 = none) := by
  by_cases h : cfg.MaxExpiry ≤ 1
  · refine ⟨?_, fun h1 => absurd h1 (not_lt.mpr h)⟩
    simp [New, h]
  · refine ⟨?_, fun _ => ?_⟩
    · simp [New, h, newRAMCache]
    · simp [New, h, newRAMCache]

/-- C2, at `MaxExpiry = 1` (rejected) and `MaxExpiry = 300` (accepted). -/
theorem New_error_iff_witness :
    (((New (fun _ _ => []) { CreateConfig with MaxExpiry := 1 } "ramcache").2 ≠ none ∧
        (New (fun _ _ => []) { CreateConfig with MaxExpiry := 1 } "ramcache").1 = none) ↔
      ({ CreateConfig with MaxExpiry := 1 } : Config).MaxExpiry ≤ 1) ∧
    ((∃ m, (New (fun _ _ => []) CreateConfig "ramcache").1 = some m ∧ m.cfg = CreateConfig) ∧
      (New (fun _ _ => []) CreateConfig "ramcache").2 = none) :=
  ⟨(New_error_iff (fun _ _ => []) { CreateConfig with MaxExpiry := 1 } "ramcache").1,
   (New_error_iff (fun _ _ => []) CreateConfig "ramcache").2 (by decide)⟩

/-! ## Cache keys -/

/-- Two concatenations whose left parts have the same length agree only
componentwise. -/
theorem string_append_inj {a b c d : String} (h : a ++ b = c ++ d)
    (hl : a.length = c.length) : a = c ∧ b = d := by
  have hd := congrArg String.data h
  rw [String.data_append, String.data_append] at hd
  obtain ⟨h1, h2⟩ := List.append_inj hd hl
  exact ⟨String.ext h1, String.ext h2⟩

/-- C6, counterexample: with `CacheQueryParams` enabled, `GET localhost/a?b` and
`GET localhost/ab` differ in path and in raw query, and get the same key. -/
theorem cacheKey_collision :
    queryHandler.cfg.CacheQueryParams = true ∧
    (requestAQueryB.Method, requestAQueryB.Host, requestAQueryB.Path) ≠
      (requestAB.Method, requestAB.Host, requestAB.Path) ∧
    (requestAQueryB.Method, requestAQueryB.Host, requestAQueryB.Path, requestAQueryB.RawQuery) ≠
      (requestAB.Method, requestAB.Host, requestAB.Path, requestAB.RawQuery) ∧
    queryHandler.cacheKey requestAQueryB = queryHandler.cacheKey requestAB := by
  decide

/-- C6, amended: for two requests whose methods have the same length, whose hosts
have the same length and, when `CacheQueryParams` is enabled, whose paths have the
same length, the keys are equal exactly when the (method, host, path) tuples are
equal and, with `CacheQueryParams` enabled, the raw queries are equal too. -/
theorem cacheKey_eq_iff_of_lengths (m : cacheHandler) (r1 r2 : Request)
    (hm : r1.Method.length = r2.Method.length) (hh : r1.Host.length = r2.Host.length)
    (hp : m.cfg.CacheQueryParams = true → r1.Path.length = r2.Path.length) :
    m.cacheKey r1 = m.cacheKey r2 ↔
      (r1.Method = r2.Method ∧ r1.Host = r2.Host ∧ r1.Path = r2.Path ∧
        (m.cfg.CacheQueryParams = true → r1.RawQuery = r2.RawQuery)) := by
  constructor
  · intro hk
    have hmh : (r1.Method ++ r1.Host).length = (r2.Method ++ r2.Host).length := by
      rw [String.length_append, String.length_append, hm, hh]
    by_cases hq : m.cfg.CacheQueryParams = true
    · rw [cacheHandler.cacheKey, cacheHandler.cacheKey, if_pos hq, if_pos hq] at hk
      have hmhp : (r1.Method ++ r1.Host ++ r1.Path).length =
          (r2.Method ++ r2.Host ++ r2.Path).length := by
        simp only [String.length_append, hm, hh, hp hq]
      obtain ⟨hk, h4⟩ := string_append_inj hk hmhp
      obtain ⟨hk, h3⟩ := string_append_inj hk hmh
      obtain ⟨h1, h2⟩ := string_append_inj hk hm
      exact ⟨h1, h2, h3, fun _ => h4⟩
    · rw [cacheHandler.cacheKey, cacheHandler.cacheKey, if_neg hq, if_neg hq] at hk
      obtain ⟨hk, h3⟩ := string_append_inj hk hmh
      obtain ⟨h1, h2⟩ := string_append_inj hk hm
      exact ⟨h1, h2, h3, fun h => absurd h hq⟩
  · rintro ⟨h1, h2, h3, h4⟩
    by_cases hq : m.cfg.CacheQueryParams = true
    · simp [cacheHandler.cacheKey, hq, h1, h2, h3, h4 hq]
    · simp [cacheHandler.cacheKey, hq, h1, h2, h3]

/-- C6, amended, at `GET localhost/a?b` and `GET localhost/b?b` with the raw query
in the key: the lengths agree, the paths differ, so the keys differ. -/
theorem cacheKey_eq_iff_of_lengths_witness :
    queryHandler.cacheKey requestAQueryB =
        queryHandler.cacheKey { requestAQueryB with Path := "/b" } ↔
      (requestAQueryB.Method = requestAQueryB.Method ∧
        requestAQueryB.Host = requestAQueryB.Host ∧ requestAQueryB.Path = "/b" ∧
        (queryHandler.cfg.CacheQueryParams = true →
          requestAQueryB.RawQuery = requestAQueryB.RawQuery)) :=
  cacheKey_eq_iff_of_lengths queryHandler requestAQueryB { requestAQueryB with Path := "/b" }
    rfl rfl (fun _ => by decide)

/-! ## The capture shim -/

/-- The shim passes every call through: its inner writer moves as the client's
writer would without the shim. -/
theorem serve_ResponseWriter (L : Lib) (rw : responseWriter) (c : Call) :
    (rw.serve L c).ResponseWriter = rw.ResponseWriter.serve L c := by
  cases c <;> rfl

theorem foldl_serve_ResponseWriter (L : Lib) (calls : List Call) (rw : responseWriter) :
    (calls.foldl (responseWriter.serve L) rw).ResponseWriter =
      calls.foldl (ResponseWriter.serve L) rw.ResponseWriter := by
  induction calls generalizing rw with
  | nil => rfl
  | cons c cs ih => simp only [List.foldl_cons, ih, serve_ResponseWriter]

theorem serveNext_ResponseWriter (L : Lib) (next : Handler) (rw : responseWriter) (r : Request) :
    (serveNext L next rw r).ResponseWriter =
      (next r rw.ResponseWriter.header).foldl (ResponseWriter.serve L) rw.ResponseWriter :=
  foldl_serve_ResponseWriter L _ rw

/-- The status the shim records is untouched by calls other than `WriteHeader`. -/
theorem foldl_serve_status (L : Lib) (calls : List Call) (rw : responseWriter)
    (h : ∀ s, Call.WriteHeader s ∉ calls) :
    (calls.foldl (responseWriter.serve L) rw).status = rw.status := by
  induction calls generalizing rw with
  | nil => rfl
  | cons c cs ih =>
    rw [List.foldl_cons, ih _ (fun s hs => h s (List.mem_cons_of_mem _ hs))]
    cases c with
    | WriteHeader s => exact absurd (List.mem_cons_self _ _) (h s)
    | HeaderSet k v => rfl
    | HeaderAdd k v => rfl
    | Write p => rfl

/-- Reading a header that was just set gives the value set. -/
theorem Header.Get_Set (canon : String → String) (h : Header) (k v : String) :
    Header.Get canon (Header.Set canon h k v) k = v := by
  simp [Header.Get, Header.Set, Header.values, List.lookup]

/-! ## Serving a request -/

/-- The miss branch ends in one of two ways: the policy is against caching and the
store is left alone, or the policy allows it and `Set` is called with the computed
time to live. -/
theorem forward_cases (L : Lib) (m : cacheHandler) (now : Int) (w : ResponseWriter)
    (r : Request) (key cs : String) :
    ((L.CachableResponseWriter r (m.capture L w r cs).status
          (m.capture L w r cs).ResponseWriter.header now).err = true ∨
        (L.CachableResponseWriter r (m.capture L w r cs).status
          (m.capture L w r cs).ResponseWriter.header now).reasons ≠ []) ∧
      m.forward L now w r key cs =
        { w := (m.capture L w r cs).ResponseWriter, cache := m.cache,
          events := [.Get key, .Next,
            .Policy (m.capture L w r cs).status
              (L.CachableResponseWriter r (m.capture L w r cs).status
                (m.capture L w r cs).ResponseWriter.header now)] } ∨
    ((L.CachableResponseWriter r (m.capture L w r cs).status
          (m.capture L w r cs).ResponseWriter.header now).err = false ∧
        (L.CachableResponseWriter r (m.capture L w r cs).status
          (m.capture L w r cs).ResponseWriter.header now).reasons = []) ∧
      m.forward L now w r key cs =
        { w := (m.capture L w r cs).ResponseWriter,
          cache := (m.cache.Set now key
            (L.Marshal { Status := (m.capture L w r cs).status,
                         Headers := (m.capture L w r cs).ResponseWriter.header,
                         Body := (m.capture L w r cs).body }).1
            (m.ttl (L.CachableResponseWriter r (m.capture L w r cs).status
              (m.capture L w r cs).ResponseWriter.header now).expireBy now)).1,
          events := [.Get key, .Next,
            .Policy (m.capture L w r cs).status
              (L.CachableResponseWriter r (m.capture L w r cs).status
                (m.capture L w r cs).ResponseWriter.header now),
            .Set key
              (L.Marshal { Status := (m.capture L w r cs).status,
                           Headers := (m.capture L w r cs).ResponseWriter.header,
                           Body := (m.capture L w r cs).body }).1
              (m.ttl (L.CachableResponseWriter r (m.capture L w r cs).status
                (m.capture L w r cs).ResponseWriter.header now).expireBy now)] } := by
  generalize hrw : m.capture L w r cs = rw
  generalize hres : L.CachableResponseWriter r rw.status rw.ResponseWriter.header now = res
  by_cases he : res.err = true
  · left
    refine ⟨Or.inl he, ?_⟩
    simp [cacheHandler.forward, cacheHandler.cacheable, hrw, hres, he]
  · by_cases hr : res.reasons = []
    · right
      refine ⟨⟨by simpa using he, hr⟩, ?_⟩
      simp [cacheHandler.forward, cacheHandler.cacheable, cacheHandler.ttl, hrw, hres, he, hr]
    · left
      refine ⟨Or.inr hr, ?_⟩
      have hlen : 0 < res.reasons.length := List.length_pos.mpr hr
      simp [cacheHandler.forward, cacheHandler.cacheable, hrw, hres, he, hlen]

/-- The blacklist loop of `ServeHTTP` takes its early exit exactly when some
blacklisted header reads non-empty on the request. -/
theorem blacklisted_iff (L : Lib) (m : cacheHandler) (r : Request) :
    m.cfg.BlacklistedHeaders.any (fun header => Header.Get L.canon r.Header header != "") = true ↔
      ∃ header ∈ m.cfg.BlacklistedHeaders, Header.Get L.canon r.Header header ≠ "" := by
  simp [List.any_eq_true]

/-- The four ways through `ServeHTTP`: bypass, replay of a stored entry, forward
after a stored payload that does not deserialise, forward after a miss. -/
theorem ServeHTTP_cases (L : Lib) (m : cacheHandler) (now : Int) (w : ResponseWriter)
    (r : Request) :
    ((∃ header ∈ m.cfg.BlacklistedHeaders, Header.Get L.canon r.Header header ≠ "") ∧
      m.ServeHTTP L now w r =
        { w := (serveNext L m.next { ResponseWriter := w, status := 0, body := [] } r).ResponseWriter,
          cache := m.cache, events := [.Next] }) ∨
    ((∀ header ∈ m.cfg.BlacklistedHeaders, Header.Get L.canon r.Header header = "") ∧
      ((∃ b data, m.cache.Get now (m.cacheKey r) = (b, true) ∧
          L.Unmarshal (b.getD []) = some data ∧
          m.ServeHTTP L now w r =
            { w := m.replay L w data, cache := m.cache, events := [.Get (m.cacheKey r)] }) ∨
       (∃ b, m.cache.Get now (m.cacheKey r) = (b, true) ∧ L.Unmarshal (b.getD []) = none ∧
          m.ServeHTTP L now w r = m.forward L now w r (m.cacheKey r) cacheErrorStatus) ∨
       (∃ b, m.cache.Get now (m.cacheKey r) = (b, false) ∧
          m.ServeHTTP L now w r = m.forward L now w r (m.cacheKey r) cacheMissStatus))) := by
  by_cases hb : ∃ header ∈ m.cfg.BlacklistedHeaders, Header.Get L.canon r.Header header ≠ ""
  · left
    refine ⟨hb, ?_⟩
    rw [cacheHandler.ServeHTTP, if_pos ((blacklisted_iff L m r).mpr hb)]
  · right
    have hb2 : ¬ (m.cfg.BlacklistedHeaders.any
        (fun header => Header.Get L.canon r.Header header != "") = true) :=
      fun h => hb ((blacklisted_iff L m r).mp h)
    refine ⟨by simpa using hb, ?_⟩
    rw [cacheHandler.ServeHTTP, if_neg hb2]
    rcases hg : m.cache.Get now (m.cacheKey r) with ⟨b, found⟩
    cases found with
    | false => exact Or.inr (Or.inr ⟨b, rfl, by simp [hg]⟩)
    | true =>
      cases hu : L.Unmarshal (b.getD []) with
      | none => exact Or.inr (Or.inl ⟨b, rfl, hu, by simp [hg, hu]⟩)
      | some data => exact Or.inl ⟨b, data, rfl, hu, by simp [hg, hu]⟩

/-- C7: when some header named in `cfg.BlacklistedHeaders` reads non-empty on the
request, `ServeHTTP` calls the upstream handler exactly once and calls neither `Get`
nor `Set`: the only call it makes is the one on the upstream handler, the store is
the same before and after, and the client's writer received the upstream handler's
calls. -/
theorem ServeHTTP_blacklisted (L : Lib) (m : cacheHandler) (now : Int) (w : ResponseWriter)
    (r : Request)
    (h : ∃ header ∈ m.cfg.BlacklistedHeaders, Header.Get L.canon r.Header header ≠ "") :
    (m.ServeHTTP L now w r).events = [.Next] ∧
    (m.ServeHTTP L now w r).cache = m.cache ∧
    (m.ServeHTTP L now w r).w = (m.next r w.header).foldl (ResponseWriter.serve L) w := by
  rw [cacheHandler.ServeHTTP, if_pos ((blacklisted_iff L m r).mpr h)]
  exact ⟨rfl, rfl, serveNext_ResponseWriter L m.next _ r⟩

/-- C7, at a request with an `Authorization` header, which the configuration
blacklists. -/
theorem ServeHTTP_blacklisted_witness :
    (authHandler.ServeHTTP sampleLib 0 newResponseWriter authRequest).events = [.Next] ∧
    (authHandler.ServeHTTP sampleLib 0 newResponseWriter authRequest).cache = authHandler.cache ∧
    (authHandler.ServeHTTP sampleLib 0 newResponseWriter authRequest).w =
      (authHandler.next authRequest newResponseWriter.header).foldl
        (ResponseWriter.serve sampleLib) newResponseWriter :=
  ServeHTTP_blacklisted sampleLib authHandler 0 newResponseWriter authRequest
    ⟨"Authorization", by decide, by decide⟩

/-- C9: when every evaluation of the policy made during a request returns an error
or at least one reason, `ServeHTTP` does not call `Set` and the store after the
request equals the store before it. -/
theorem ServeHTTP_ineligible_stores_nothing (L : Lib) (m : cacheHandler) (now : Int)
    (w : ResponseWriter) (r : Request)
    (h : ∀ st res, Event.Policy st res ∈ (m.ServeHTTP L now w r).events →
      res.err = true ∨ res.reasons ≠ []) :
    (∀ k v e, Event.Set k v e ∉ (m.ServeHTTP L now w r).events) ∧
    (m.ServeHTTP L now w r).cache = m.cache := by
  have key : ∀ cs, m.ServeHTTP L now w r = m.forward L now w r (m.cacheKey r) cs →
      (∀ k v e, Event.Set k v e ∉ (m.ServeHTTP L now w r).events) ∧
      (m.ServeHTTP L now w r).cache = m.cache := by
    intro cs hs
    rcases forward_cases L m now w r (m.cacheKey r) cs with ⟨-, hf⟩ | ⟨⟨he, hr⟩, hf⟩
    · rw [hs, hf]
      simp
    · exfalso
      have hmem : Event.Policy (m.capture L w r cs).status
          (L.CachableResponseWriter r (m.capture L w r cs).status
            (m.capture L w r cs).ResponseWriter.header now) ∈
          (m.ServeHTTP L now w r).events := by
        rw [hs, hf]
        simp
      rcases h _ _ hmem with h1 | h1
      · rw [he] at h1
        exact Bool.false_ne_true h1
      · exact h1 hr
  rcases ServeHTTP_cases L m now w r with ⟨-, hs⟩ | ⟨-, ⟨b, data, -, -, hs⟩ | ⟨b, -, -, hs⟩ | ⟨b, -, hs⟩⟩
  · rw [hs]
    simp
  · rw [hs]
    simp
  · exact key _ hs
  · exact key _ hs

/-- C9, at an upstream reply with `Cache-Control: no-store`. -/
theorem ServeHTTP_ineligible_stores_nothing_witness :
    (∀ k v e, Event.Set k v e ∉
      (noStoreHandler.ServeHTTP sampleLib 0 newResponseWriter testRequest).events) ∧
    (noStoreHandler.ServeHTTP sampleLib 0 newResponseWriter testRequest).cache =
      noStoreHandler.cache :=
  ServeHTTP_ineligible_stores_nothing sampleLib noStoreHandler 0 newResponseWriter testRequest
    (by
      have he : (noStoreHandler.ServeHTTP sampleLib 0 newResponseWriter testRequest).events =
          [.Get "GETlocalhost/some/path", .Next,
            .Policy 200 { reasons := [1], expireBy := 0, err := false }] := by decide
      intro st res hmem
      rw [he] at hmem
      simp at hmem
      right
      rw [hmem.2]
      simp)

/-- The writer after the miss branch is the labelled writer after the upstream
handler's calls; nothing else is written to it. -/
theorem forward_w (L : Lib) (m : cacheHandler) (now : Int) (w : ResponseWriter)
    (r : Request) (key cs : String) :
    (m.forward L now w r key cs).w =
      (m.next r (m.label L w cs).header).foldl (ResponseWriter.serve L) (m.label L w cs) := by
  have hc : (m.capture L w r cs).ResponseWriter =
      (m.next r (m.label L w cs).header).foldl (ResponseWriter.serve L) (m.label L w cs) :=
    serveNext_ResponseWriter L m.next _ r
  rcases forward_cases L m now w r key cs with ⟨-, hf⟩ | ⟨-, hf⟩
  · rw [hf, ← hc]
  · rw [hf, ← hc]

/-- The miss branch calls the upstream handler exactly once, right after the lookup. -/
theorem forward_events (L : Lib) (m : cacheHandler) (now : Int) (w : ResponseWriter)
    (r : Request) (key cs : String) :
    (m.forward L now w r key cs).events.count Event.Next = 1 ∧
    (m.forward L now w r key cs).events.take 2 = [.Get key, .Next] := by
  rcases forward_cases L m now w r key cs with ⟨-, hf⟩ | ⟨-, hf⟩
  · rw [hf]
    simp [List.count_cons]
  · rw [hf]
    simp [List.count_cons]

/-- C10: for a request without blacklisted header whose key is found in the store
with a payload that does not deserialise, and with `AddStatusHeader` on, `ServeHTTP`
sets `Cache-Status` to `"error"` on the writer, then the client's writer receives
exactly the calls of the upstream handler (nothing of the stored payload), and the
upstream handler is called exactly once, right after the lookup. -/
theorem ServeHTTP_corrupt_entry (L : Lib) (m : cacheHandler) (now : Int) (w : ResponseWriter)
    (r : Request) (b : Bytes)
    (hbl : ∀ header ∈ m.cfg.BlacklistedHeaders, Header.Get L.canon r.Header header = "")
    (hget : m.cache.Get now (m.cacheKey r) = (some b, true))
    (hbad : L.Unmarshal b = none)
    (hadd : m.cfg.AddStatusHeader = true) :
    Header.Get L.canon (Header.Set L.canon w.header cacheHeader cacheErrorStatus) cacheHeader
      = "error" ∧
    (m.ServeHTTP L now w r).w =
      (m.next r (Header.Set L.canon w.header cacheHeader cacheErrorStatus)).foldl
        (ResponseWriter.serve L)
        { w with header := Header.Set L.canon w.header cacheHeader cacheErrorStatus } ∧
    (m.ServeHTTP L now w r).events.count Event.Next = 1 ∧
    (m.ServeHTTP L now w r).events.take 2 = [.Get (m.cacheKey r), .Next] := by
  have hl : m.label L w cacheErrorStatus =
      { w with header := Header.Set L.canon w.header cacheHeader cacheErrorStatus } := by
    rw [cacheHandler.label, if_pos hadd]
  have hs : m.ServeHTTP L now w r = m.forward L now w r (m.cacheKey r) cacheErrorStatus := by
    rcases ServeHTTP_cases L m now w r with
      ⟨⟨hd, hmem, hne⟩, -⟩ | ⟨-, ⟨b1, data, hg, hu, -⟩ | ⟨b1, -, -, hs⟩ | ⟨b1, hg, -⟩⟩
    · exact absurd (hbl hd hmem) hne
    · rw [hget] at hg
      injection hg with h1 h2
      subst h1
      rw [Option.getD_some, hbad] at hu
      cases hu
    · exact hs
    · rw [hget] at hg
      injection hg with h1 h2
      cases h2
  refine ⟨?_, ?_, ?_, ?_⟩
  · rw [Header.Get_Set]
    rfl
  · rw [hs, forward_w, hl]
  · rw [hs]
    exact (forward_events L m now w r _ _).1
  · rw [hs]
    exact (forward_events L m now w r _ _).2

/-- C10, at a store that holds an empty payload under the key of the test request. -/
theorem ServeHTTP_corrupt_entry_witness :
    Header.Get sampleLib.canon
        (Header.Set sampleLib.canon newResponseWriter.header cacheHeader cacheErrorStatus)
        cacheHeader = "error" ∧
    (corruptHandler.ServeHTTP sampleLib 0 newResponseWriter testRequest).w =
      (corruptHandler.next testRequest
          (Header.Set sampleLib.canon newResponseWriter.header cacheHeader cacheErrorStatus)).foldl
        (ResponseWriter.serve sampleLib)
        { newResponseWriter with
          header := Header.Set sampleLib.canon newResponseWriter.header cacheHeader
            cacheErrorStatus } ∧
    (corruptHandler.ServeHTTP sampleLib 0 newResponseWriter testRequest).events.count
      Event.Next = 1 ∧
    (corruptHandler.ServeHTTP sampleLib 0 newResponseWriter testRequest).events.take 2 =
      [.Get (corruptHandler.cacheKey testRequest), .Next] :=
  ServeHTTP_corrupt_entry sampleLib corruptHandler 0 newResponseWriter testRequest []
    (by decide) (by decide) (by decide) (by decide)

/-! ## Lifetimes of zero and below -/

/-- C4, counterexample: the upstream reply is fresh for zero seconds, the policy
reports neither error nor reason, the computed lifetime is 0 whole seconds, and
`ServeHTTP` calls `Set` with a time to live of 0 and changes the store. -/
theorem ServeHTTP_sets_zero_lifetime :
    (zeroAgeHandler.ServeHTTP sampleLib 0 newResponseWriter testRequest).events =
      [.Get "GETlocalhost/some/path", .Next,
        .Policy 200 { reasons := [], expireBy := 0, err := false },
        .Set "GETlocalhost/some/path" [200, 104, 105] 0] ∧
    zeroAgeHandler.ttl 0 0 = 0 ∧
    (zeroAgeHandler.ServeHTTP sampleLib 0 newResponseWriter testRequest).cache ≠
      zeroAgeHandler.cache := by
  decide

/-- C4, amended: whenever the policy, evaluated during a request, reports neither an
error nor a reason, `ServeHTTP` calls `Set` exactly once, after the upstream handler,
with the lifetime in whole seconds (the time until `expireBy`, capped at `MaxExpiry`)
as time to live, whatever its sign: zero and negative lifetimes are not filtered. -/
theorem ServeHTTP_sets_when_eligible (L : Lib) (m : cacheHandler) (now : Int)
    (w : ResponseWriter) (r : Request) (st : Int) (res : PolicyResult)
    (hp : Event.Policy st res ∈ (m.ServeHTTP L now w r).events)
    (herr : res.err = false) (hre : res.reasons = []) :
    ∃ v, (m.ServeHTTP L now w r).events =
        [.Get (m.cacheKey r), .Next, .Policy st res,
          .Set (m.cacheKey r) v (m.ttl res.expireBy now)] ∧
      (m.ServeHTTP L now w r).cache =
        (m.cache.Set now (m.cacheKey r) v (m.ttl res.expireBy now)).1 := by
  have key : ∀ cs, m.ServeHTTP L now w r = m.forward L now w r (m.cacheKey r) cs →
      ∃ v, (m.ServeHTTP L now w r).events =
        [.Get (m.cacheKey r), .Next, .Policy st res,
          .Set (m.cacheKey r) v (m.ttl res.expireBy now)] ∧
      (m.ServeHTTP L now w r).cache =
        (m.cache.Set now (m.cacheKey r) v (m.ttl res.expireBy now)).1 := by
    intro cs hs
    rw [hs] at hp ⊢
    rcases forward_cases L m now w r (m.cacheKey r) cs with ⟨hbad, hf⟩ | ⟨-, hf⟩
    · exfalso
      rw [hf] at hp
      simp at hp
      obtain ⟨-, h2⟩ := hp
      rw [← h2] at hbad
      rcases hbad with h1 | h1
      · rw [herr] at h1
        exact Bool.false_ne_true h1
      · exact h1 hre
    · rw [hf] at hp
      simp at hp
      obtain ⟨h1, h2⟩ := hp
      subst h1 h2
      rw [hf]
      exact ⟨_, rfl, rfl⟩
  rcases ServeHTTP_cases L m now w r with
    ⟨-, hs⟩ | ⟨-, ⟨b, data, -, -, hs⟩ | ⟨b, -, -, hs⟩ | ⟨b, -, hs⟩⟩
  · rw [hs] at hp
    simp at hp
  · rw [hs] at hp
    simp at hp
  · exact key _ hs
  · exact key _ hs

/-- C4, amended, at the upstream reply that is fresh for zero seconds. -/
theorem ServeHTTP_sets_when_eligible_witness :
    ∃ v, (zeroAgeHandler.ServeHTTP sampleLib 0 newResponseWriter testRequest).events =
        [.Get (zeroAgeHandler.cacheKey testRequest), .Next,
          .Policy 200 { reasons := [], expireBy := 0, err := false },
          .Set (zeroAgeHandler.cacheKey testRequest) v
            (zeroAgeHandler.ttl
              ({ reasons := [], expireBy := 0, err := false } : PolicyResult).expireBy 0)] ∧
      (zeroAgeHandler.ServeHTTP sampleLib 0 newResponseWriter testRequest).cache =
        (zeroAgeHandler.cache.Set 0 (zeroAgeHandler.cacheKey testRequest) v
          (zeroAgeHandler.ttl
            ({ reasons := [], expireBy := 0, err := false } : PolicyResult).expireBy 0)).1 :=
  ServeHTTP_sets_when_eligible sampleLib zeroAgeHandler 0 newResponseWriter testRequest 200
    { reasons := [], expireBy := 0, err := false } (by decide) rfl rfl

/-- C5, what the code does: for every upstream handler that never calls
`WriteHeader`, however many times it calls `Write`, the status the shim has captured
is 0, Go's zero value, not 200. -/
theorem capture_status_without_WriteHeader (L : Lib) (m : cacheHandler) (w : ResponseWriter)
    (r : Request) (cs : String)
    (h : ∀ s, Call.WriteHeader s ∉ m.next r (m.label L w cs).header) :
    (m.capture L w r cs).status = 0 := by
  rw [cacheHandler.capture, serveNext]
  exact foldl_serve_status L _ _ h

/-- C5, at an upstream handler that sets `Cache-Control` and writes two bytes: the
captured status is 0, the client received status 200, and the entry handed to `Set`
carries status 0. -/
theorem capture_status_without_WriteHeader_witness :
    (writeOnlyHandler.capture sampleLib newResponseWriter testRequest cacheMissStatus).status = 0 ∧
    (writeOnlyHandler.ServeHTTP sampleLib 0 newResponseWriter testRequest).w.code = 200 ∧
    (writeOnlyHandler.ServeHTTP sampleLib 0 newResponseWriter testRequest).events =
      [.Get "GETlocalhost/some/path", .Next,
        .Policy 0 { reasons := [], expireBy := 20000000000, err := false },
        .Set "GETlocalhost/some/path" [0, 104, 105] 10] :=
  ⟨capture_status_without_WriteHeader sampleLib writeOnlyHandler newResponseWriter testRequest
      cacheMissStatus
      (by
        intro s hs
        simp [writeOnlyHandler, testHandler, writeOnlyNext] at hs),
    by decide, by decide⟩

/-! ## The time to live -/

theorem wrap64_range (x : Int) : minDuration ≤ wrap64 x ∧ wrap64 x ≤ maxDuration := by
  unfold wrap64 minDuration maxDuration
  omega

theorem wrap64_of_range (x : Int) (h1 : minDuration ≤ x) (h2 : x ≤ maxDuration) :
    wrap64 x = x := by
  unfold wrap64
  unfold minDuration at h1
  unfold maxDuration at h2
  omega

theorem timeUntil_range (t now : Int) :
    minDuration ≤ timeUntil t now ∧ timeUntil t now ≤ maxDuration := by
  unfold timeUntil minDuration maxDuration
  split_ifs <;> omega

/-- Go's integer division by `time.Second` truncates toward zero. -/
theorem tdiv_Second_cases (x : Int) :
    (0 ≤ x ∧ Int.tdiv x Second = x / 1000000000) ∨
    (x < 0 ∧ Int.tdiv x Second = -((-x) / 1000000000)) := by
  by_cases h : 0 ≤ x
  · exact Or.inl ⟨h, Int.tdiv_eq_ediv h (by decide)⟩
  · right
    refine ⟨by omega, ?_⟩
    have h1 : Int.tdiv (-(-x)) Second = -(Int.tdiv (-x) Second) := Int.neg_tdiv (-x) Second
    rw [Int.neg_neg] at h1
    rw [h1, Int.tdiv_eq_ediv (by omega) (by decide)]
    rfl

/-- The time to live is within the range in which its product with `time.Second`
fits 64 bits. -/
theorem ttl_range (m : cacheHandler) (expireBy now : Int) :
    -9223372036 ≤ m.ttl expireBy now ∧ m.ttl expireBy now ≤ 9223372036 := by
  have hw := wrap64_range (m.cfg.MaxExpiry * Second)
  have hu := timeUntil_range expireBy now
  unfold cacheHandler.ttl secondsToDuration
  unfold minDuration maxDuration at hw hu
  split_ifs
  · rcases tdiv_Second_cases (wrap64 (m.cfg.MaxExpiry * Second)) with ⟨h0, he⟩ | ⟨h0, he⟩ <;>
      rw [he] <;> omega
  · rcases tdiv_Second_cases (timeUntil expireBy now) with ⟨h0, he⟩ | ⟨h0, he⟩ <;>
      rw [he] <;> omega

/-- The time to live never exceeds `MaxExpiry`, also when `MaxExpiry` seconds wrap
as a duration. -/
theorem ttl_le (m : cacheHandler) (expireBy now : Int) (hmax : 1 < m.cfg.MaxExpiry) :
    m.ttl expireBy now ≤ m.cfg.MaxExpiry := by
  by_cases hM : m.cfg.MaxExpiry ≤ 9223372036
  · have hid : wrap64 (m.cfg.MaxExpiry * Second) = m.cfg.MaxExpiry * Second :=
      wrap64_of_range _ (by simp only [minDuration, Second]; omega)
        (by simp only [maxDuration, Second]; omega)
    unfold cacheHandler.ttl secondsToDuration
    rw [hid]
    unfold Second at *
    split_ifs with hlt
    · rcases tdiv_Second_cases (m.cfg.MaxExpiry * 1000000000) with ⟨h0, he⟩ | ⟨h0, he⟩
      · unfold Second at he
        rw [he]
        omega
      · omega
    · rcases tdiv_Second_cases (timeUntil expireBy now) with ⟨h0, he⟩ | ⟨h0, he⟩
      · unfold Second at he
        rw [he]
        omega
      · unfold Second at he
        rw [he]
        omega
  · have := (ttl_range m expireBy now).2
    omega

/-- Without wrap, the time to live is the one of the spec. -/
theorem ttl_eq_spec (m : cacheHandler) (expireBy now : Int) (hmax : 1 < m.cfg.MaxExpiry)
    (hM : m.cfg.MaxExpiry ≤ 9223372036) :
    m.ttl expireBy now = specEffectiveTTL (timeUntil expireBy now) m.cfg.MaxExpiry := by
  have hid : wrap64 (m.cfg.MaxExpiry * Second) = m.cfg.MaxExpiry * Second :=
    wrap64_of_range _ (by simp only [minDuration, Second]; omega)
      (by simp only [maxDuration, Second]; omega)
  unfold cacheHandler.ttl specEffectiveTTL secondsToDuration
  rw [hid]
  congr 1
  rw [min_def]
  split_ifs <;> omega

/-- The first component of `cacheable` is the time to live when the second is true. -/
theorem cacheable_fst (L : Lib) (m : cacheHandler) (now : Int) (r : Request)
    (w : ResponseWriter) (status : Int) :
    m.cacheable L now r w status = (0, false) ∨
    m.cacheable L now r w status =
      (m.ttl (L.CachableResponseWriter r status w.header now).expireBy now, true) := by
  unfold cacheHandler.cacheable cacheHandler.ttl
  dsimp only
  by_cases h : ((L.CachableResponseWriter r status w.header now).err ||
      decide ((L.CachableResponseWriter r status w.header now).reasons.length > 0)) = true
  · rw [if_pos h]
    exact Or.inl rfl
  · rw [if_neg h]
    exact Or.inr rfl

/-- C8, counterexample: `New` accepts `MaxExpiry = 9223372037`; as a duration these
seconds wrap below zero, and for a reply that is fresh for 20 seconds `cacheable`
returns -9223372036, where the minimum of the lifetime and `MaxExpiry` seconds is
20 seconds. -/
theorem cacheable_wrapped_MaxExpiry :
    (New testNext hugeConfig "ramcache").2 = none ∧
    (sampleLib.CachableResponseWriter testRequest 200 maxAgeWriter.header 0).expireBy =
      20 * Second ∧
    hugeHandler.cacheable sampleLib 0 testRequest maxAgeWriter 200 = (-9223372036, true) ∧
    specEffectiveTTL (timeUntil (20 * Second) 0) hugeHandler.cfg.MaxExpiry = 20 := by
  decide

/-- C8, amended: for a handler with `MaxExpiry > 1`, as `New` requires, the time to
live `cacheable` returns never exceeds `MaxExpiry`, for every deadline the policy
reports and every current time, and so does every time to live `ServeHTTP` passes to
`Set`; when moreover `MaxExpiry <= 9223372036`, so that `MaxExpiry` seconds fit a
64-bit duration, the time to live of an eligible response equals the minimum of the
time until `expireBy` and `MaxExpiry` seconds, truncated to whole seconds. -/
theorem cacheable_ttl_le_MaxExpiry (L : Lib) (m : cacheHandler) (now : Int) (r : Request)
    (w : ResponseWriter) (status : Int) (hmax : 1 < m.cfg.MaxExpiry) :
    (m.cacheable L now r w status).1 ≤ m.cfg.MaxExpiry ∧
    (∀ k v e, Event.Set k v e ∈ (m.ServeHTTP L now w r).events → e ≤ m.cfg.MaxExpiry) ∧
    ((m.cacheable L now r w status).2 = true → m.cfg.MaxExpiry ≤ 9223372036 →
      (m.cacheable L now r w status).1 =
        specEffectiveTTL (timeUntil (L.CachableResponseWriter r status w.header now).expireBy now)
          m.cfg.MaxExpiry) := by
  refine ⟨?_, ?_, ?_⟩
  · rcases cacheable_fst L m now r w status with h | h
    · rw [h]
      exact le_of_lt (lt_trans Int.zero_lt_one hmax)
    · rw [h]
      exact ttl_le m _ now hmax
  · intro k v e hmem
    have key : ∀ cs, m.ServeHTTP L now w r = m.forward L now w r (m.cacheKey r) cs →
        e ≤ m.cfg.MaxExpiry := by
      intro cs hs
      rw [hs] at hmem
      rcases forward_cases L m now w r (m.cacheKey r) cs with ⟨-, hf⟩ | ⟨-, hf⟩
      · rw [hf] at hmem
        simp at hmem
      · rw [hf] at hmem
        simp at hmem
        rw [hmem.2.2]
        exact ttl_le m _ now hmax
    rcases ServeHTTP_cases L m now w r with
      ⟨-, hs⟩ | ⟨-, ⟨b, data, -, -, hs⟩ | ⟨b, -, -, hs⟩ | ⟨b, -, hs⟩⟩
    · rw [hs] at hmem
      simp at hmem
    · rw [hs] at hmem
      simp at hmem
    · exact key _ hs
    · exact key _ hs
  · intro hok hM
    rcases cacheable_fst L m now r w status with h | h
    · rw [h] at hok
      exact absurd hok Bool.false_ne_true
    · rw [h]
      exact ttl_eq_spec m _ now hmax hM

/-- C8, amended, at the test handler (`MaxExpiry = 10`) and a reply fresh for 20
seconds. -/
theorem cacheable_ttl_le_MaxExpiry_witness :
    (testHandler.cacheable sampleLib 0 testRequest maxAgeWriter 200).1 ≤
      testHandler.cfg.MaxExpiry ∧
    (∀ k v e, Event.Set k v e ∈
        (testHandler.ServeHTTP sampleLib 0 maxAgeWriter testRequest).events →
      e ≤ testHandler.cfg.MaxExpiry) ∧
    ((testHandler.cacheable sampleLib 0 testRequest maxAgeWriter 200).2 = true →
      testHandler.cfg.MaxExpiry ≤ 9223372036 →
      (testHandler.cacheable sampleLib 0 testRequest maxAgeWriter 200).1 =
        specEffectiveTTL
          (timeUntil
            (sampleLib.CachableResponseWriter testRequest 200 maxAgeWriter.header 0).expireBy 0)
          testHandler.cfg.MaxExpiry) :=
  cacheable_ttl_le_MaxExpiry sampleLib testHandler 0 testRequest maxAgeWriter 200 (by decide)

/-! ## The expiring store -/

theorem lookup_filter_ne {β : Type} (k k1 : String) (l : List (String × β)) (h : k ≠ k1) :
    List.lookup k (l.filter (fun e => e.1 != k1)) = List.lookup k l := by
  induction l with
  | nil => rfl
  | cons e es ih =>
    obtain ⟨a, b⟩ := e
    by_cases ha : a = k1
    · subst ha
      have hka : (k == a) = false := by simpa using h
      simp [List.filter_cons, List.lookup_cons, hka, ih]
    · have hne : (a != k1) = true := by simpa using ha
      simp only [List.filter_cons, hne, if_true, List.lookup_cons, ih]

theorem handlerGet_handlerSet (items : Items) (de now t : Int) (k : String) (x : Bytes)
    (d : Int) (hd : 0 < d) :
    handlerGet (handlerSet items de now k x d) t k = if t < now + d then some x else none := by
  have h0 : ¬ d = 0 := by omega
  simp [handlerGet, handlerSet, List.lookup_cons, h0, hd]

/-- An entry set with a negative duration is returned at every later instant. -/
theorem handlerGet_handlerSet_neg (items : Items) (de now t : Int) (k : String) (x : Bytes)
    (d : Int) (hd : d < 0) :
    handlerGet (handlerSet items de now k x d) t k = some x := by
  have h0 : ¬ d = 0 := by omega
  have h1 : ¬ 0 < d := by omega
  simp [handlerGet, handlerSet, List.lookup_cons, h0, h1]

theorem handlerGet_handlerSet_ne (items : Items) (de now t : Int) (k k1 : String) (x : Bytes)
    (d : Int) (h : k ≠ k1) :
    handlerGet (handlerSet items de now k1 x d) t k = handlerGet items t k := by
  have hk : (k == k1) = false := by simpa using h
  simp only [handlerGet, handlerSet, List.lookup_cons, hk, lookup_filter_ne k k1 items h]

/-- Later `Set` calls on other keys leave what `Get` returns for `key` unchanged. -/
theorem Get_SetAll_ne (c : ramCache) (later : List SetCall) (t : Int) (key : String)
    (h : ∀ s ∈ later, s.key ≠ key) :
    (c.SetAll later).Get t key = c.Get t key := by
  induction later generalizing c with
  | nil => rfl
  | cons s ss ih =>
    have h1 : s.key ≠ key := h s (List.mem_cons_self _ _)
    rw [ramCache.SetAll, List.foldl_cons]
    have := ih (c.Set s.now s.key s.val s.expire).1 (fun s1 hs1 => h s1 (List.mem_cons_of_mem _ hs1))
    rw [ramCache.SetAll] at this
    rw [this]
    simp only [ramCache.Get, ramCache.Set]
    rw [handlerGet_handlerSet_ne _ _ _ _ _ _ _ _ (Ne.symm h1)]

/-- C3, counterexample: a time to live of 9223372037 seconds wraps below zero as a
duration, the entry is stored without expiry, and `Get` still returns
`(value, true)` when the 9223372037 seconds have elapsed, and a second later. -/
theorem Set_wrapped_ttl :
    (0 : Int) < 9223372037 ∧ secondsToDuration 9223372037 < 0 ∧
    ((newRAMCache 30).1.Set 0 testCacheKey [1, 2, 3] 9223372037).1.Get
        (0 + 9223372037 * Second) testCacheKey = (some [1, 2, 3], true) ∧
    ((newRAMCache 30).1.Set 0 testCacheKey [1, 2, 3] 9223372037).1.Get
        (0 + 9223372038 * Second) testCacheKey = (some [1, 2, 3], true) := by
  decide

/-- C3, amended: for every key, value and time to live with
`0 < ttl <= 9223372036` seconds, so that the seconds fit a 64-bit duration: after
`Set(key, value, ttl)` at `t0` and any later `Set` calls on other keys, `Get(key)` at
`t` returns `(value, true)` when `t` is before `t0 + ttl` seconds and `(nil, false)`
once `ttl` seconds have elapsed since `t0`. -/
theorem Set_then_Get (c : ramCache) (key : String) (value : Bytes) (ttl t0 t : Int)
    (later : List SetCall) (hpos : 0 < ttl) (hfit : ttl ≤ 9223372036)
    (hlater : ∀ s ∈ later, s.key ≠ key) :
    (t < t0 + ttl * Second →
      ((c.Set t0 key value ttl).1.SetAll later).Get t key = (some value, true)) ∧
    (t0 + ttl * Second ≤ t →
      ((c.Set t0 key value ttl).1.SetAll later).Get t key = (none, false)) := by
  have hid : secondsToDuration ttl = ttl * Second :=
    wrap64_of_range _ (by simp only [minDuration, Second]; omega)
      (by simp only [maxDuration, Second]; omega)
  have hd : 0 < ttl * Second := by
    simp only [Second]
    omega
  rw [Get_SetAll_ne _ later t key hlater]
  simp only [ramCache.Get, ramCache.Set, hid, handlerGet_handlerSet _ _ _ _ _ _ _ hd]
  constructor
  · intro h
    rw [if_pos h]
  · intro h
    rw [if_neg (not_lt.mpr h)]

/-- C3, amended, at the values of `TestRAMCache`: a time to live of 3 seconds, read
one second and three seconds after the `Set`, with a `Set` on another key between. -/
theorem Set_then_Get_witness :
    (((newRAMCache 30).1.Set 0 testCacheKey [1, 2, 3] 3).1.SetAll
        [{ now := 5, key := "other", val := [], expire := 3 }]).Get (1 * Second) testCacheKey =
      (some [1, 2, 3], true) ∧
    (((newRAMCache 30).1.Set 0 testCacheKey [1, 2, 3] 3).1.SetAll
        [{ now := 5, key := "other", val := [], expire := 3 }]).Get (3 * Second) testCacheKey =
      (none, false) :=
  ⟨(Set_then_Get (newRAMCache 30).1 testCacheKey [1, 2, 3] 3 0 (1 * Second)
      [{ now := 5, key := "other", val := [], expire := 3 }] (by decide) (by decide)
      (by decide)).1 (by decide),
   (Set_then_Get (newRAMCache 30).1 testCacheKey [1, 2, 3] 3 0 (3 * Second)
      [{ now := 5, key := "other", val := [], expire := 3 }] (by decide) (by decide)
      (by decide)).2 (by decide)⟩

/-! ## Miss, then hit -/

/-- Calls on the header map leave the captured status and body, and the status line
and body of the client's writer, as they are. -/
theorem foldl_header_calls (L : Lib) (hs : List Call) (rw : responseWriter)
    (h : ∀ c ∈ hs, c.isHeaderCall = true) :
    (hs.foldl (responseWriter.serve L) rw).status = rw.status ∧
    (hs.foldl (responseWriter.serve L) rw).body = rw.body ∧
    (hs.foldl (responseWriter.serve L) rw).ResponseWriter.wroteHeader =
      rw.ResponseWriter.wroteHeader ∧
    (hs.foldl (responseWriter.serve L) rw).ResponseWriter.code = rw.ResponseWriter.code ∧
    (hs.foldl (responseWriter.serve L) rw).ResponseWriter.body = rw.ResponseWriter.body := by
  induction hs generalizing rw with
  | nil => exact ⟨rfl, rfl, rfl, rfl, rfl⟩
  | cons c cs ih =>
    have hc := h c (List.mem_cons_self _ _)
    have := ih (rw.serve L c) (fun c1 hc1 => h c1 (List.mem_cons_of_mem _ hc1))
    rw [List.foldl_cons]
    cases c with
    | HeaderSet k v => exact this
    | HeaderAdd k v => exact this
    | WriteHeader s => exact absurd hc Bool.false_ne_true
    | Write p => exact absurd hc Bool.false_ne_true

/-- Once the status line is written, no call changes it. -/
theorem foldl_serve_code (L : Lib) (calls : List Call) (w : ResponseWriter)
    (hw : w.wroteHeader = true) :
    (calls.foldl (ResponseWriter.serve L) w).code = w.code := by
  induction calls generalizing w with
  | nil => rfl
  | cons c cs ih =>
    rw [List.foldl_cons]
    cases c with
    | HeaderSet k v => exact ih _ hw
    | HeaderAdd k v => exact ih _ hw
    | WriteHeader s =>
      have h1 : ResponseWriter.serve L w (.WriteHeader s) = w := by
        simp [ResponseWriter.serve, ResponseWriter.WriteHeader, hw]
      rw [h1]
      exact ih _ hw
    | Write p =>
      have h1 : ResponseWriter.serve L w (.Write p) = { w with body := w.body ++ p } := by
        simp [ResponseWriter.serve, ResponseWriter.Write, hw]
      rw [h1]
      exact ih _ hw

/-- The body the shim accumulates is the body the client's writer received. -/
theorem foldl_serve_body (L : Lib) (calls : List Call) (rw : responseWriter) (base : Bytes)
    (h : rw.ResponseWriter.body = base ++ rw.body) :
    (calls.foldl (responseWriter.serve L) rw).ResponseWriter.body =
      base ++ (calls.foldl (responseWriter.serve L) rw).body := by
  induction calls generalizing rw with
  | nil => exact h
  | cons c cs ih =>
    rw [List.foldl_cons]
    apply ih
    cases c with
    | HeaderSet k v => exact h
    | HeaderAdd k v => exact h
    | WriteHeader s =>
      simp only [responseWriter.serve, responseWriter.WriteHeader, ResponseWriter.WriteHeader]
      split_ifs <;> exact h
    | Write p =>
      simp only [responseWriter.serve, responseWriter.Write, ResponseWriter.Write,
        ResponseWriter.WriteHeader]
      split_ifs <;> simp [h]

/-- When the upstream handler calls `WriteHeader` once, before any `Write`, on a
writer whose status line is not yet written, the shim captures the status the client
receives. -/
theorem foldl_serve_explicit_status (L : Lib) (hs ws : List Call) (s : Int)
    (rw : responseWriter) (hfresh : rw.ResponseWriter.wroteHeader = false)
    (hhs : ∀ c ∈ hs, c.isHeaderCall = true) (hws : ∀ s1, Call.WriteHeader s1 ∉ ws) :
    ((hs ++ Call.WriteHeader s :: ws).foldl (responseWriter.serve L) rw).status = s ∧
    ((hs ++ Call.WriteHeader s :: ws).foldl (responseWriter.serve L) rw).ResponseWriter.code
      = s := by
  obtain ⟨-, -, h3, -, -⟩ := foldl_header_calls L hs rw hhs
  rw [List.foldl_append, List.foldl_cons]
  generalize hs.foldl (responseWriter.serve L) rw = rw1 at h3 ⊢
  rw [hfresh] at h3
  constructor
  · rw [foldl_serve_status L ws _ hws]
    rfl
  · rw [foldl_serve_ResponseWriter, foldl_serve_code]
    · simp [responseWriter.serve, responseWriter.WriteHeader, ResponseWriter.WriteHeader, h3]
    · simp [responseWriter.serve, responseWriter.WriteHeader, ResponseWriter.WriteHeader, h3]

/-- Setting one header leaves a header with another canonical name as it was. -/
theorem Header.Get_Set_ne (canon : String → String) (h : Header) (k k1 v : String)
    (hne : canon k ≠ canon k1) :
    Header.Get canon (Header.Set canon h k1 v) k = Header.Get canon h k := by
  have hk : (canon k == canon k1) = false := by simpa using hne
  simp only [Header.Get, Header.Set, Header.values, List.lookup_cons, hk,
    lookup_filter_ne (canon k) (canon k1) h hne]

/-- What the replay of a stored entry leaves on a fresh writer. -/
theorem replay_fresh (L : Lib) (m : cacheHandler) (w : ResponseWriter) (data : cacheData)
    (hadd : m.cfg.AddStatusHeader = true)
    (hcanon : L.canon cacheHeader ≠ L.canon "Cache-Control")
    (hw : w.wroteHeader = false) (hb : w.body = []) :
    Header.Get L.canon (m.replay L w data).header cacheHeader = "hit" ∧
    (m.replay L w data).code = data.Status ∧
    (m.replay L w data).body = data.Body := by
  unfold cacheHandler.replay
  simp only [hadd, if_true]
  refine ⟨?_, ?_, ?_⟩
  · by_cases hf : m.cfg.ForceNoCacheHeader = true
    · simp only [hf, if_true, ResponseWriter.Write, ResponseWriter.WriteHeader, hw]
      simp only [Bool.false_eq_true, if_false, if_true]
      rw [Header.Get_Set_ne _ _ _ _ _ hcanon, Header.Get_Set]
      rfl
    · simp only [hf, ResponseWriter.Write, ResponseWriter.WriteHeader, hw]
      simp only [Bool.false_eq_true, if_false, if_true]
      rw [Header.Get_Set]
      rfl
  · by_cases hf : m.cfg.ForceNoCacheHeader = true <;>
      simp [hf, ResponseWriter.Write, ResponseWriter.WriteHeader, hw]
  · by_cases hf : m.cfg.ForceNoCacheHeader = true <;>
      simp [hf, ResponseWriter.Write, ResponseWriter.WriteHeader, hw, hb]

theorem ServeHTTP_of_miss (L : Lib) (m : cacheHandler) (now : Int) (w : ResponseWriter)
    (r : Request)
    (hbl : ∀ header ∈ m.cfg.BlacklistedHeaders, Header.Get L.canon r.Header header = "")
    (hget : m.cache.Get now (m.cacheKey r) = (none, false)) :
    m.ServeHTTP L now w r = m.forward L now w r (m.cacheKey r) cacheMissStatus := by
  rcases ServeHTTP_cases L m now w r with
    ⟨⟨hd, hmem, hne⟩, -⟩ | ⟨-, ⟨b1, data, hg, -, -⟩ | ⟨b1, hg, -, -⟩ | ⟨b1, -, hs⟩⟩
  · exact absurd (hbl hd hmem) hne
  · rw [hget] at hg
    injection hg with h1 h2
    cases h2
  · rw [hget] at hg
    injection hg with h1 h2
    cases h2
  · exact hs

theorem ServeHTTP_of_hit (L : Lib) (m : cacheHandler) (now : Int) (w : ResponseWriter)
    (r : Request) (b : Bytes) (data : cacheData)
    (hbl : ∀ header ∈ m.cfg.BlacklistedHeaders, Header.Get L.canon r.Header header = "")
    (hget : m.cache.Get now (m.cacheKey r) = (some b, true))
    (hu : L.Unmarshal b = some data) :
    m.ServeHTTP L now w r =
      { w := m.replay L w data, cache := m.cache, events := [.Get (m.cacheKey r)] } := by
  rcases ServeHTTP_cases L m now w r with
    ⟨⟨hd, hmem, hne⟩, -⟩ | ⟨-, ⟨b1, data1, hg, hu1, hs⟩ | ⟨b1, hg, hu1, -⟩ | ⟨b1, hg, -⟩⟩
  · exact absurd (hbl hd hmem) hne
  · rw [hget] at hg
    injection hg with h1 h2
    subst h1
    rw [Option.getD_some, hu] at hu1
    injection hu1 with h3
    subst h3
    exact hs
  · rw [hget] at hg
    injection hg with h1 h2
    subst h1
    rw [Option.getD_some, hu] at hu1
    cases hu1
  · rw [hget] at hg
    injection hg with h1 h2
    cases h2

/-- A time to live computed by the handler, taken as seconds, fits a duration. -/
theorem secondsToDuration_ttl (m : cacheHandler) (expireBy now : Int) :
    secondsToDuration (m.ttl expireBy now) = m.ttl expireBy now * Second := by
  have h := ttl_range m expireBy now
  exact wrap64_of_range _ (by simp only [minDuration, Second]; omega)
    (by simp only [maxDuration, Second]; omega)

/-- C1, what the code does at an upstream handler that never calls `WriteHeader`:
with `MaxExpiry = 10` and `AddStatusHeader` on, an empty store and an upstream
handler that sets `Cache-Control: max-age=20` and writes its body, the first
`ServeHTTP` is a miss that the policy accepts and the client receives status 200; the
immediate second `ServeHTTP` is a hit that does not call upstream and writes the same
body, but with status 0. -/
theorem ServeHTTP_hit_replays_status_zero :
    (writeOnlyHandler.ServeHTTP sampleLib 0 newResponseWriter testRequest).events =
      [.Get "GETlocalhost/some/path", .Next,
        .Policy 0 { reasons := [], expireBy := 20000000000, err := false },
        .Set "GETlocalhost/some/path" [0, 104, 105] 10] ∧
    Header.Get sampleLib.canon
      (writeOnlyHandler.ServeHTTP sampleLib 0 newResponseWriter testRequest).w.header
      cacheHeader = "miss" ∧
    (writeOnlyHandler.ServeHTTP sampleLib 0 newResponseWriter testRequest).w.code = 200 ∧
    (writeOnlyHandler.ServeHTTP sampleLib 0 newResponseWriter testRequest).w.body = [104, 105] ∧
    ({ writeOnlyHandler with
        cache := (writeOnlyHandler.ServeHTTP sampleLib 0 newResponseWriter testRequest).cache
      }.ServeHTTP sampleLib 0 newResponseWriter testRequest).events =
      [.Get "GETlocalhost/some/path"] ∧
    Header.Get sampleLib.canon
      ({ writeOnlyHandler with
          cache := (writeOnlyHandler.ServeHTTP sampleLib 0 newResponseWriter testRequest).cache
        }.ServeHTTP sampleLib 0 newResponseWriter testRequest).w.header
      cacheHeader = "hit" ∧
    ({ writeOnlyHandler with
        cache := (writeOnlyHandler.ServeHTTP sampleLib 0 newResponseWriter testRequest).cache
      }.ServeHTTP sampleLib 0 newResponseWriter testRequest).w.body = [104, 105] ∧
    ({ writeOnlyHandler with
        cache := (writeOnlyHandler.ServeHTTP sampleLib 0 newResponseWriter testRequest).cache
      }.ServeHTTP sampleLib 0 newResponseWriter testRequest).w.code = 0 := by
  decide

/-- The round trip of C1 where the upstream handler sets its status explicitly: with
`AddStatusHeader` on, for a request without blacklisted header
served against an empty store on a fresh writer, whose upstream handler calls
`WriteHeader` exactly once and before any `Write`, whose response the policy accepts,
with a time to live of at least one second, and whose serialised entry deserialises
to the same status and body: the first
`ServeHTTP` sets `Cache-Status` to `"miss"`, calls upstream once and hands the entry
to `Set`; a second `ServeHTTP` of the same request on a fresh writer, made before the
time to live has elapsed, does not call upstream, leaves `Cache-Status` at `"hit"`,
and writes the status and the body the client received the first time. -/
theorem ServeHTTP_miss_then_hit (L : Lib) (m : cacheHandler) (now now2 : Int)
    (w w2 : ResponseWriter) (r : Request) (hs ws : List Call) (s : Int)
    (hadd : m.cfg.AddStatusHeader = true)
    (hbl : ∀ header ∈ m.cfg.BlacklistedHeaders, Header.Get L.canon r.Header header = "")
    (hempty : m.cache.handler = [])
    (hw : w.wroteHeader = false ∧ w.body = [])
    (hw2 : w2.wroteHeader = false ∧ w2.body = [])
    (hcalls : m.next r (m.label L w cacheMissStatus).header = hs ++ Call.WriteHeader s :: ws)
    (hhs : ∀ c ∈ hs, c.isHeaderCall = true)
    (hws : ∀ s1, Call.WriteHeader s1 ∉ ws)
    (herr : (m.verdict L now w r cacheMissStatus).err = false)
    (hre : (m.verdict L now w r cacheMissStatus).reasons = [])
    (httl : 0 < m.ttl (m.verdict L now w r cacheMissStatus).expireBy now)
    (hnow2 : now2 < now + m.ttl (m.verdict L now w r cacheMissStatus).expireBy now * Second)
    (hjson : ∃ d, L.Unmarshal (L.Marshal (m.entry L w r cacheMissStatus)).1 = some d ∧
      d.Status = (m.entry L w r cacheMissStatus).Status ∧
      d.Body = (m.entry L w r cacheMissStatus).Body)
    (hcanon : L.canon cacheHeader ≠ L.canon "Cache-Control") :
    (m.ServeHTTP L now w r).events =
      [.Get (m.cacheKey r), .Next, .Policy s (m.verdict L now w r cacheMissStatus),
        .Set (m.cacheKey r) (L.Marshal (m.entry L w r cacheMissStatus)).1
          (m.ttl (m.verdict L now w r cacheMissStatus).expireBy now)] ∧
    Header.Get L.canon (m.label L w cacheMissStatus).header cacheHeader = "miss" ∧
    (m.ServeHTTP L now w r).w =
      (m.next r (m.label L w cacheMissStatus).header).foldl (ResponseWriter.serve L)
        (m.label L w cacheMissStatus) ∧
    ({ m with cache := (m.ServeHTTP L now w r).cache }.ServeHTTP L now2 w2 r).events =
      [.Get (m.cacheKey r)] ∧
    Header.Get L.canon
      ({ m with cache := (m.ServeHTTP L now w r).cache }.ServeHTTP L now2 w2 r).w.header
      cacheHeader = "hit" ∧
    ({ m with cache := (m.ServeHTTP L now w r).cache }.ServeHTTP L now2 w2 r).w.code = s ∧
    (m.ServeHTTP L now w r).w.code = s ∧
    ({ m with cache := (m.ServeHTTP L now w r).cache }.ServeHTTP L now2 w2 r).w.body =
      (m.ServeHTTP L now w r).w.body := by
  -- the first request is a miss
  have hget1 : m.cache.Get now (m.cacheKey r) = (none, false) := by
    simp [ramCache.Get, handlerGet, hempty]
  have hs1 := ServeHTTP_of_miss L m now w r hbl hget1
  have hlabel : m.label L w cacheMissStatus =
      { w with header := Header.Set L.canon w.header cacheHeader cacheMissStatus } := by
    rw [cacheHandler.label, if_pos hadd]
  have hlw : (m.label L w cacheMissStatus).wroteHeader = false := by
    rw [hlabel]
    exact hw.1
  have hlb : (m.label L w cacheMissStatus).body = [] := by
    rw [hlabel]
    exact hw.2
  -- what the shim captured
  have hcap : m.capture L w r cacheMissStatus =
      (hs ++ Call.WriteHeader s :: ws).foldl (responseWriter.serve L)
        { ResponseWriter := m.label L w cacheMissStatus, status := 0, body := [] } := by
    rw [← hcalls]
    rfl
  obtain ⟨hst, hcode⟩ := foldl_serve_explicit_status L hs ws s
    { ResponseWriter := m.label L w cacheMissStatus, status := 0, body := [] } hlw hhs hws
  rw [← hcap] at hst hcode
  have hbody : (m.capture L w r cacheMissStatus).ResponseWriter.body =
      (m.capture L w r cacheMissStatus).body := by
    have := foldl_serve_body L (hs ++ Call.WriteHeader s :: ws)
      { ResponseWriter := m.label L w cacheMissStatus, status := 0, body := [] } []
      (by simp [hlb])
    rw [← hcap] at this
    simpa using this
  -- the miss branch stores the entry
  have hf : m.forward L now w r (m.cacheKey r) cacheMissStatus =
      { w := (m.capture L w r cacheMissStatus).ResponseWriter,
        cache := (m.cache.Set now (m.cacheKey r) (L.Marshal (m.entry L w r cacheMissStatus)).1
          (m.ttl (m.verdict L now w r cacheMissStatus).expireBy now)).1,
        events := [.Get (m.cacheKey r), .Next,
          .Policy (m.capture L w r cacheMissStatus).status (m.verdict L now w r cacheMissStatus),
          .Set (m.cacheKey r) (L.Marshal (m.entry L w r cacheMissStatus)).1
            (m.ttl (m.verdict L now w r cacheMissStatus).expireBy now)] } := by
    rcases forward_cases L m now w r (m.cacheKey r) cacheMissStatus with ⟨hbad, -⟩ | ⟨-, hf⟩
    · exfalso
      rcases hbad with h1 | h1
      · rw [cacheHandler.verdict] at herr
        rw [herr] at h1
        exact Bool.false_ne_true h1
      · exact h1 hre
    · exact hf
  -- the second request finds the entry
  obtain ⟨d, hu, hdS, hdB⟩ := hjson
  have hget2 : ({ m with cache := (m.ServeHTTP L now w r).cache } : cacheHandler).cache.Get now2
      (({ m with cache := (m.ServeHTTP L now w r).cache } : cacheHandler).cacheKey r) =
      (some (L.Marshal (m.entry L w r cacheMissStatus)).1, true) := by
    show (m.ServeHTTP L now w r).cache.Get now2 (m.cacheKey r) = _
    rw [hs1, hf]
    have hd : 0 < m.ttl (m.verdict L now w r cacheMissStatus).expireBy now * Second := by
      simp only [Second]
      omega
    simp only [ramCache.Get, ramCache.Set, secondsToDuration_ttl,
      handlerGet_handlerSet _ _ _ _ _ _ _ hd, if_pos hnow2]
  have hs2 := ServeHTTP_of_hit L { m with cache := (m.ServeHTTP L now w r).cache } now2 w2 r
    _ d hbl hget2 hu
  obtain ⟨hhit, hc2, hb2⟩ := replay_fresh L
    { m with cache := (m.ServeHTTP L now w r).cache } w2 d hadd hcanon hw2.1 hw2.2
  refine ⟨?_, ?_, ?_, ?_, ?_, ?_, ?_, ?_⟩
  · rw [hs1, hf, hst]
  · rw [hlabel, Header.Get_Set]
    rfl
  · rw [hs1, forward_w]
  · rw [hs2]
    rfl
  · rw [hs2]
    exact hhit
  · rw [hs2]
    show (cacheHandler.replay L _ w2 d).code = s
    rw [hc2, hdS]
    exact hst
  · rw [hs1, hf]
    exact hcode
  · rw [hs2]
    show (cacheHandler.replay L _ w2 d).body = _
    rw [hb2, hdB, hs1, hf]
    exact hbody.symm

/-- The round trip at the scenario of `TestCache_ServeHTTP`: `MaxExpiry = 10`, upstream
replies 200 with `Cache-Control: max-age=20`, and the second request is immediate. -/
theorem ServeHTTP_miss_then_hit_witness :
    (testHandler.ServeHTTP sampleLib 0 newResponseWriter testRequest).events =
      [.Get (testHandler.cacheKey testRequest), .Next,
        .Policy 200 (testHandler.verdict sampleLib 0 newResponseWriter testRequest cacheMissStatus),
        .Set (testHandler.cacheKey testRequest)
          (sampleLib.Marshal
            (testHandler.entry sampleLib newResponseWriter testRequest cacheMissStatus)).1
          (testHandler.ttl
            (testHandler.verdict sampleLib 0 newResponseWriter testRequest
              cacheMissStatus).expireBy 0)] ∧
    Header.Get sampleLib.canon
      (testHandler.label sampleLib newResponseWriter cacheMissStatus).header cacheHeader
      = "miss" ∧
    ({ testHandler with
        cache := (testHandler.ServeHTTP sampleLib 0 newResponseWriter testRequest).cache
      }.ServeHTTP sampleLib 0 newResponseWriter testRequest).events =
      [.Get (testHandler.cacheKey testRequest)] ∧
    Header.Get sampleLib.canon
      ({ testHandler with
          cache := (testHandler.ServeHTTP sampleLib 0 newResponseWriter testRequest).cache
        }.ServeHTTP sampleLib 0 newResponseWriter testRequest).w.header
      cacheHeader = "hit" ∧
    ({ testHandler with
        cache := (testHandler.ServeHTTP sampleLib 0 newResponseWriter testRequest).cache
      }.ServeHTTP sampleLib 0 newResponseWriter testRequest).w.code = 200 ∧
    (testHandler.ServeHTTP sampleLib 0 newResponseWriter testRequest).w.code = 200 ∧
    ({ testHandler with
        cache := (testHandler.ServeHTTP sampleLib 0 newResponseWriter testRequest).cache
      }.ServeHTTP sampleLib 0 newResponseWriter testRequest).w.body =
      (testHandler.ServeHTTP sampleLib 0 newResponseWriter testRequest).w.body :=
  have h := ServeHTTP_miss_then_hit sampleLib testHandler 0 0 newResponseWriter
    newResponseWriter testRequest [.HeaderSet "Cache-Control" "max-age=20"] [] 200
    (by decide) (by decide) rfl ⟨rfl, rfl⟩ ⟨rfl, rfl⟩ rfl (by decide)
    (fun _ => List.not_mem_nil _) (by decide) (by decide) (by decide) (by decide)
    ⟨{ Status := 200, Headers := [], Body := [] }, by decide, by decide, by decide⟩
    (by decide)
  ⟨h.1, h.2.1, h.2.2.2.1, h.2.2.2.2.1, h.2.2.2.2.2.1, h.2.2.2.2.2.2.1, h.2.2.2.2.2.2.2⟩

end RamCache
